import Mathlib

/-!
Shallow embedding of `src/pyminim.py` (class `Minimiser`).

Modelling conventions:
* A Python `dict` of string keys and string values is a `Dict`: an association
  list in insertion order.  Python dictionaries never hold duplicate keys, so
  theorems about dictionary-valued inputs carry a `Nodup` hypothesis on the
  keys where the behaviour depends on it.
* The pandas dataframe `df_patients` is a list of rows in append order; a row
  is the patient's index label (`id`) together with its cells (the validated
  characteristics dictionary into which the code has inserted the `arm` key).
  The dataframe's column labels are fixed at construction time to the
  minimisation-variable names followed by `arm` (`create_patient_dataframe`),
  and every append supplies exactly those keys, so the column list is derived
  from the configuration (`Minimiser.columns`).
* The process-wide `random` module is modelled by an oracle `ROracle` supplied
  per call: `r` is the value `random.random()` would return in that call and
  `c` the index `random.choice` would draw in that call (each primitive is
  consulted at most once per `randomise_patient` call).  `random.seed(id)`
  only redirects which values future draws produce; since the oracle ranges
  over all possible draw sequences, it has no further observable effect here.
* Exceptions (`ValueError`, `AssertionError`, `IndexError`) become an error
  type `MErr`; message payloads are elided.  A raised exception propagates out
  of `randomise_patient` before any attribute of the object or the caller's
  dictionary has been mutated (the first mutation, of the characteristics
  dictionary, happens after the last possible raise), so an error result
  carries the unchanged engine state and characteristics dictionary.
* `value_counts` on the `arm` column: pandas returns the distinct values with
  their multiplicities, ordered by descending count.  We keep the distinct
  values in `List.dedup` order instead; the program consults the order only
  through `idxmax` (used when there is a single entry) and `idxmin` (used when
  the counts are not all equal), and our extremum selectors agree with pandas
  whenever the extremum is unique, which covers every path whose outcome the
  claims depend on.
-/

namespace PyMinim

abbrev Dict := List (String × String)

deriving instance DecidableEq for Except

/-- Keys of a Python dictionary, in insertion order. -/
def dictKeys (d : Dict) : List String := d.map Prod.fst

/-- `d[k]` for a Python dictionary (first binding wins; keys are unique in
any dictionary the program builds).  Total with default `""`. -/
def dictGet (d : Dict) (k : String) : String :=
  ((d.find? (fun p => p.1 == k)).map Prod.snd).getD ""

/-- `d[k] = v` on a Python dictionary: overwrite in place if the key exists,
otherwise append the new binding at the end (Python insertion order). -/
def dictInsert (d : Dict) (k v : String) : Dict :=
  if d.any (fun p => p.1 == k) then
    d.map (fun p => if p.1 == k then (k, v) else p)
  else d ++ [(k, v)]

/-- One row of `df_patients`: the index label and the cells keyed by column. -/
structure Row where
  id : String
  cells : Dict
deriving DecidableEq, Repr

/-- The `arm` cell of a row. -/
def Row.arm (row : Row) : String := dictGet row.cells "arm"

/-- The engine state: the fields of the Python `Minimiser` object.
`minimisation_vars` is the dict from variable name to its tuple of permitted
categories, in insertion order. -/
structure Minimiser where
  minimisation_vars : List (String × List String)
  arms : List String
  minimisation_weight : ℚ
  use_first_patient_id_as_seed : Bool
  df_patients : List Row
deriving DecidableEq, Repr

/-- Column labels of `df_patients` as built by `create_patient_dataframe`:
the variable names followed by `arm`.  Iterating a pandas dataframe (as the
Python `in` operator does) yields exactly these labels. -/
def Minimiser.columns (m : Minimiser) : List String :=
  m.minimisation_vars.map Prod.fst ++ ["arm"]

/-- The permitted categories `self.minimisation_vars[k]`. -/
def Minimiser.varGet (m : Minimiser) (k : String) : List String :=
  ((m.minimisation_vars.find? (fun p => p.1 == k)).map Prod.snd).getD []

/-- Errors the Python code can raise (exception payloads elided). -/
inductive MErr where
  /-- `assert 'arm' not in minimisation_vars` in `__init__` failed. -/
  | assertArmReserved
  /-- `ValueError` from `check_valid_characteristics`: key sets differ. -/
  | covariateMismatch
  /-- `ValueError` from `check_valid_characteristics`: value not permitted. -/
  | invalidCovariateValue
  /-- `assert len(conditions) > 0` in `apply_conditions` failed. -/
  | assertConditionsEmpty
  /-- `IndexError` from `random.choice` on an empty arms sequence. -/
  | indexErrorEmptyArms
  /-- `assert len(other_arm) == 1` in `get_minimised_arm` failed. -/
  | assertSingleOtherArm
  /-- `assert id not in self.df_patients` in `_add_patient_to_arm` failed. -/
  | assertPatientInList
deriving DecidableEq, Repr

/-- `Minimiser.__init__`: asserts the reserved name and stores the fields;
`create_patient_dataframe` gives the empty registry. -/
def minimiserInit (minimisation_vars : List (String × List String))
    (arms : List String) (minimisation_weight : ℚ)
    (use_first_patient_id_as_seed : Bool) : Except MErr Minimiser :=
  if minimisation_vars.any (fun p => p.1 == "arm") then .error .assertArmReserved
  else .ok { minimisation_vars := minimisation_vars, arms := arms,
             minimisation_weight := minimisation_weight,
             use_first_patient_id_as_seed := use_first_patient_id_as_seed,
             df_patients := [] }

/-- Per-call pseudo-random oracle: `r` is what `random.random()` would return
this call, `c` the index `random.choice` would draw this call. -/
structure ROracle where
  r : ℚ
  c : Nat
deriving DecidableEq, Repr

/-- A draw the real `random` module can produce: `random.random()` lies in
the half-open unit interval. -/
def ROracle.valid (ro : ROracle) : Prop := 0 ≤ ro.r ∧ ro.r < 1

/-- `sorted(...)` on a list of strings (lexicographic order, as in Python). -/
def sortedStr (l : List String) : List String :=
  l.insertionSort (fun a b => a ≤ b)

/-- `Minimiser.check_valid_characteristics`: compare the sorted key lists,
then scan the sorted keys for a value outside its permitted tuple (the loop
raises at the first offending key). -/
def check_valid_characteristics (m : Minimiser) (characteristics : Dict) :
    Except MErr Bool :=
  let pt_chars := sortedStr (dictKeys characteristics)
  let needed_chars := sortedStr (m.minimisation_vars.map Prod.fst)
  if pt_chars ≠ needed_chars then .error .covariateMismatch
  else
    match pt_chars.find?
        (fun k => ! (m.varGet k).contains (dictGet characteristics k)) with
    | some _ => .error .invalidCovariateValue
    | none => .ok true

/-- `Minimiser.get_random_arm`: `random.choice(self.arms)` with the oracle
index `c`; `random.choice` raises on an empty sequence. -/
def get_random_arm (m : Minimiser) (c : Nat) : Except MErr String :=
  match m.arms.get? (c % m.arms.length) with
  | some a => .ok a
  | none => .error .indexErrorEmptyArms

/-- The boolean mask of `Minimiser.apply_conditions` at one row: the
conjunction over the conditions of cell-equals-value. -/
def row_matches (row : Row) (conditions : List (String × String)) : Bool :=
  conditions.all (fun cv => dictGet row.cells cv.1 == cv.2)

/-- `rows['arm'].value_counts()`: each distinct value with its multiplicity
(see the ordering note in the file header). -/
def value_counts (xs : List String) : List (String × Nat) :=
  xs.dedup.map (fun k => (k, xs.count k))

/-- `counts.max()` of a pandas series (0 on an empty series, never consulted
there by the program). -/
def seriesMax (counts : List (String × Nat)) : Nat :=
  match counts.map Prod.snd with
  | [] => 0
  | x :: xs => xs.foldr max x

/-- `counts.min()` of a pandas series. -/
def seriesMin (counts : List (String × Nat)) : Nat :=
  match counts.map Prod.snd with
  | [] => 0
  | x :: xs => xs.foldr min x

/-- `counts.idxmax()`: the label of an entry holding the maximum count. -/
def idxmax (counts : List (String × Nat)) : String :=
  ((counts.find? (fun p => p.2 == seriesMax counts)).map Prod.fst).getD ""

/-- `counts.idxmin()`: the label of an entry holding the minimum count. -/
def idxmin (counts : List (String × Nat)) : String :=
  ((counts.find? (fun p => p.2 == seriesMin counts)).map Prod.fst).getD ""

/-- `Minimiser.get_minimised_arm`.  `conditions` is `zip` of the keys and
values of the characteristics dictionary, i.e. its bindings in order;
`apply_conditions` asserts the conditions are non-empty; `rows` is the
registry filtered to exact matches on every condition. -/
def get_minimised_arm (m : Minimiser) (c : Nat) (characteristics : Dict) :
    Except MErr String :=
  let conditions : List (String × String) := characteristics
  if conditions.length = 0 then .error .assertConditionsEmpty
  else
    let rows := m.df_patients.filter (fun row => row_matches row conditions)
    if rows.length = 0 then get_random_arm m c
    else
      let counts := value_counts (rows.map Row.arm)
      if counts.length = 1 then
        let only_arm := idxmax counts
        let other_arm := m.arms.filter (fun a => a != only_arm)
        if other_arm.length = 1 then .ok (other_arm.headD "")
        else .error .assertSingleOtherArm
      else
        if seriesMax counts = seriesMin counts then get_random_arm m c
        else .ok (idxmin counts)

/-- `Minimiser._add_patient_to_arm`.  The membership test `id not in
self.df_patients` iterates the dataframe, i.e. tests `id` against the COLUMN
labels, not the registered index labels.  Then the caller's characteristics
dictionary is mutated in place to carry the arm, and the one-row frame built
from it (in the module's own run, `patient` aliases `characteristics`) is
appended. -/
def add_patient_to_arm (m : Minimiser) (id : String)
    (characteristics : Dict) (arm : String) : Except MErr (Minimiser × Dict) :=
  if id ∈ m.columns then .error .assertPatientInList
  else
    let characteristics2 := dictInsert characteristics "arm" arm
    let row : Row := { id := id, cells := characteristics2 }
    .ok ({ m with df_patients := m.df_patients ++ [row] }, characteristics2)

/-- `Minimiser.randomise_patient`.  On success the result carries the new
engine state, the caller's characteristics dictionary as the call leaves it,
and the Python return value (the function body has no return statement, so it
returns `None`, here `none`).  On failure it carries the error together with
the unchanged engine state and characteristics dictionary. -/
def randomise_patient (m : Minimiser) (ro : ROracle) (id : String)
    (characteristics : Dict) :
    Except (MErr × Minimiser × Dict) (Minimiser × Dict × Option String) :=
  match check_valid_characteristics m characteristics with
  | .error e => .error (e, m, characteristics)
  | .ok _ =>
    let armE : Except MErr String :=
      if m.df_patients.length = 0 then
        -- first patient: possible random.seed(id), then a random arm
        get_random_arm m ro.c
      else
        if ro.r ≤ m.minimisation_weight then get_minimised_arm m ro.c characteristics
        else get_random_arm m ro.c
    match armE with
    | .error e => .error (e, m, characteristics)
    | .ok arm =>
      match add_patient_to_arm m id characteristics arm with
      | .error e => .error (e, m, characteristics)
      | .ok (m2, characteristics2) =>
        -- print of the assignment, then fall off the end: Python returns None
        .ok (m2, characteristics2, none)

/-- Engine states reachable by constructing a `Minimiser` and making any
number of successful `randomise_patient` calls. -/
inductive Reachable : Minimiser → Prop where
  | boot (minimisation_vars : List (String × List String)) (arms : List String)
      (w : ℚ) (sb : Bool) (m : Minimiser) :
      minimiserInit minimisation_vars arms w sb = .ok m → Reachable m
  | step (m : Minimiser) (ro : ROracle) (id : String) (ch : Dict)
      (m' : Minimiser) (ch' : Dict) (ret : Option String) :
      Reachable m → randomise_patient m ro id ch = .ok (m', ch', ret) →
      Reachable m'

/-- States reachable by constructing a `Minimiser` over one covariate with two
permitted values and two arms, with minimisation weight 1, and making any
number of successful `randomise_patient` calls whose pseudo-random draws are
ones the `random` module can produce. -/
inductive ReachBal (vname x y a₁ a₂ : String) (sb : Bool) : Minimiser → Prop where
  | boot (m : Minimiser) :
      minimiserInit [(vname, [x, y])] [a₁, a₂] 1 sb = .ok m →
      ReachBal vname x y a₁ a₂ sb m
  | step (m : Minimiser) (ro : ROracle) (id : String) (ch : Dict)
      (m' : Minimiser) (ch' : Dict) (ret : Option String) :
      ReachBal vname x y a₁ a₂ sb m → ro.valid →
      randomise_patient m ro id ch = .ok (m', ch', ret) →
      ReachBal vname x y a₁ a₂ sb m'

/-- Observation used by the balance property: how many registered subjects
have covariate `v` equal to `w` and assigned arm `a`. -/
def armCount (df : List Row) (v w a : String) : Nat :=
  (df.filter (fun row => dictGet row.cells v == w && Row.arm row == a)).length

/-- The element `random.choice` yields from a two-element sequence when the
oracle index is `c`. -/
def pick2 (c : Nat) (a b : String) : String := if c % 2 = 0 then a else b

/-! Concrete configurations and registries used by witnesses and
counterexamples: the spec's concrete scenario (one covariate `sex` with
values `male`/`female`, arms `A` and `B`, weight 1, seeding disabled). -/

def sexVars : List (String × List String) := [("sex", ["male", "female"])]

def chMale : Dict := [("sex", "male")]

def chFemale : Dict := [("sex", "female")]

def engAB : Minimiser :=
  { minimisation_vars := sexVars, arms := ["A", "B"], minimisation_weight := 1,
    use_first_patient_id_as_seed := false, df_patients := [] }

def rowA1 : Row := { id := "1", cells := [("sex", "male"), ("arm", "A")] }

def rowB2 : Row := { id := "2", cells := [("sex", "male"), ("arm", "B")] }

def engAB1 : Minimiser := { engAB with df_patients := [rowA1] }

def engAB2 : Minimiser := { engAB with df_patients := [rowA1, rowB2] }

/-- A three-arm configuration holding one registered subject in arm `A`. -/
def engABC : Minimiser :=
  { minimisation_vars := sexVars, arms := ["A", "B", "C"],
    minimisation_weight := 1, use_first_patient_id_as_seed := false,
    df_patients := [rowA1] }

/-! Helper lemmas about the embedded operations. -/


theorem check_valid_ok {m : Minimiser} {ch : Dict} {b : Bool}
    (h : check_valid_characteristics m ch = .ok b) : b = true := by
  simp only [check_valid_characteristics] at h
  split at h
  · cases h
  · split at h
    · cases h
    · cases h; rfl

theorem sortedStr_eq_iff {l₁ l₂ : List String} :
    sortedStr l₁ = sortedStr l₂ ↔ l₁.Perm l₂ := by
  constructor
  · intro h
    have p₁ : (sortedStr l₁).Perm l₁ := List.perm_insertionSort _ l₁
    have p₂ : (sortedStr l₂).Perm l₂ := List.perm_insertionSort _ l₂
    exact p₁.symm.trans (by rw [h]; exact p₂)
  · intro h
    have s₁ := List.sorted_insertionSort (fun a b : String => a ≤ b) l₁
    have s₂ := List.sorted_insertionSort (fun a b : String => a ≤ b) l₂
    have p₁ : (sortedStr l₁).Perm l₁ := List.perm_insertionSort _ l₁
    have p₂ : (sortedStr l₂).Perm l₂ := List.perm_insertionSort _ l₂
    exact List.eq_of_perm_of_sorted ((p₁.trans h).trans p₂.symm) s₁ s₂

theorem get_random_arm_pair {m : Minimiser} {a b : String}
    (harms : m.arms = [a, b]) (c : Nat) :
    get_random_arm m c = .ok (pick2 c a b) := by
  unfold get_random_arm pick2
  rw [harms]
  rcases Nat.mod_two_eq_zero_or_one c with h0 | h1
  · simp [h0]
  · simp [h1]

theorem add_patient_ok {m : Minimiser} {id : String} {ch : Dict} {arm : String}
    (hid : id ∉ m.columns) :
    add_patient_to_arm m id ch arm =
      .ok ({ m with df_patients :=
               m.df_patients ++ [{ id := id, cells := dictInsert ch "arm" arm }] },
           dictInsert ch "arm" arm) := by
  simp only [add_patient_to_arm, if_neg hid]

theorem randomise_ok_inversion {m : Minimiser} {ro : ROracle} {id : String}
    {ch : Dict} {m' : Minimiser} {ch' : Dict} {ret : Option String}
    (h : randomise_patient m ro id ch = .ok (m', ch', ret)) :
    ∃ arm,
      m' = { m with df_patients :=
               m.df_patients ++ [{ id := id, cells := dictInsert ch "arm" arm }] } ∧
      ch' = dictInsert ch "arm" arm ∧ ret = none ∧ id ∉ m.columns ∧
      check_valid_characteristics m ch = .ok true ∧
      ((m.df_patients.length = 0 ∧ get_random_arm m ro.c = .ok arm) ∨
       (m.df_patients.length ≠ 0 ∧ ro.r ≤ m.minimisation_weight ∧
          get_minimised_arm m ro.c ch = .ok arm) ∨
       (m.df_patients.length ≠ 0 ∧ ¬ ro.r ≤ m.minimisation_weight ∧
          get_random_arm m ro.c = .ok arm)) := by
  unfold randomise_patient at h
  cases hcv : check_valid_characteristics m ch with
  | error e => rw [hcv] at h; cases h
  | ok b =>
    have hb := check_valid_ok hcv
    subst hb
    rw [hcv] at h
    simp only [] at h
    have main : ∀ armE : Except MErr String,
        (match armE with
          | .error e => Except.error (e, m, ch)
          | .ok arm =>
            match add_patient_to_arm m id ch arm with
            | .error e => Except.error (e, m, ch)
            | .ok (m2, c2) => Except.ok (m2, c2, (none : Option String))) =
          .ok (m', ch', ret) →
        ∃ arm, armE = .ok arm ∧
          m' = { m with df_patients :=
                   m.df_patients ++ [{ id := id, cells := dictInsert ch "arm" arm }] } ∧
          ch' = dictInsert ch "arm" arm ∧ ret = none ∧ id ∉ m.columns := by
      intro armE hE
      cases armE with
      | error e => cases hE
      | ok arm =>
        dsimp only at hE
        by_cases hid : id ∈ m.columns
        · rw [show add_patient_to_arm m id ch arm = .error .assertPatientInList from by
            simp only [add_patient_to_arm, if_pos hid]] at hE
          cases hE
        · rw [add_patient_ok hid] at hE
          cases hE
          exact ⟨arm, rfl, rfl, rfl, rfl, hid⟩
    by_cases hdf : m.df_patients.length = 0
    · rw [if_pos hdf] at h
      obtain ⟨arm, hE, h1, h2, h3, h4⟩ := main _ h
      exact ⟨arm, h1, h2, h3, h4, rfl, .inl ⟨hdf, hE⟩⟩
    · rw [if_neg hdf] at h
      by_cases hr : ro.r ≤ m.minimisation_weight
      · rw [if_pos hr] at h
        obtain ⟨arm, hE, h1, h2, h3, h4⟩ := main _ h
        exact ⟨arm, h1, h2, h3, h4, rfl, .inr (.inl ⟨hdf, hr, hE⟩)⟩
      · rw [if_neg hr] at h
        obtain ⟨arm, hE, h1, h2, h3, h4⟩ := main _ h
        exact ⟨arm, h1, h2, h3, h4, rfl, .inr (.inr ⟨hdf, hr, hE⟩)⟩

theorem minimiserInit_ok {vars : List (String × List String)} {arms : List String}
    {w : ℚ} {sb : Bool} {m : Minimiser}
    (h : minimiserInit vars arms w sb = .ok m) :
    m = { minimisation_vars := vars, arms := arms, minimisation_weight := w,
          use_first_patient_id_as_seed := sb, df_patients := [] } ∧
    ∀ p ∈ vars, p.1 ≠ "arm" := by
  unfold minimiserInit at h
  split at h
  · cases h
  · cases h
    rename_i hany
    refine ⟨rfl, ?_⟩
    intro p hp hne
    exact hany (List.any_eq_true.mpr ⟨p, hp, by simp [hne]⟩)

theorem get_random_arm_mem {m : Minimiser} {c : Nat} {a : String}
    (h : get_random_arm m c = .ok a) : a ∈ m.arms := by
  unfold get_random_arm at h
  split at h
  · cases h
    rename_i hget
    exact List.get?_mem hget
  · cases h

theorem dictInsert_of_keys_ne {d : Dict} {k : String} (h : ∀ p ∈ d, p.1 ≠ k)
    (v : String) : dictInsert d k v = d ++ [(k, v)] := by
  unfold dictInsert
  rw [if_neg]
  simp only [List.any_eq_true, beq_iff_eq]
  rintro ⟨p, hp, hpk⟩
  exact h p hp hpk

theorem dictGet_append_of_keys_ne {d : Dict} {k : String} (h : ∀ p ∈ d, p.1 ≠ k)
    (v : String) : dictGet (d ++ [(k, v)]) k = v := by
  induction d with
  | nil => simp [dictGet]
  | cons p d ih =>
    unfold dictGet
    rw [List.cons_append, List.find?_cons_of_neg]
    · exact ih (fun q hq => h q (List.mem_cons_of_mem p hq))
    · simp [h p (List.mem_cons_self p d)]

theorem dictGet_of_mem {d : Dict} {k v : String} (hnd : (dictKeys d).Nodup)
    (hmem : (k, v) ∈ d) : dictGet d k = v := by
  induction d with
  | nil => cases hmem
  | cons p d ih =>
    rcases List.mem_cons.mp hmem with h1 | h2
    · subst h1
      simp [dictGet]
    · have hp : p.1 ≠ k := by
        intro hk
        have : k ∈ dictKeys d := List.mem_map.mpr ⟨(k, v), h2, rfl⟩
        simp only [dictKeys, List.map_cons, List.nodup_cons] at hnd
        exact hnd.1 (hk ▸ this)
      unfold dictGet
      rw [List.find?_cons_of_neg _ (by simp [hp])]
      exact ih (List.Nodup.of_cons (by simpa [dictKeys] using hnd)) h2

theorem check_valid_keys_perm {m : Minimiser} {ch : Dict}
    (h : check_valid_characteristics m ch = .ok true) :
    (dictKeys ch).Perm (m.minimisation_vars.map Prod.fst) := by
  simp only [check_valid_characteristics] at h
  split at h
  · cases h
  · rename_i hne
    exact sortedStr_eq_iff.mp (not_ne_iff.mp hne)

theorem foldr_min_choice (x : Nat) (xs : List Nat) :
    xs.foldr min x = x ∨ xs.foldr min x ∈ xs := by
  induction xs with
  | nil => exact .inl rfl
  | cons y ys ih =>
    simp only [List.foldr_cons]
    rcases le_total y (ys.foldr min x) with hy | hy
    · rw [min_eq_left hy]
      exact .inr (List.mem_cons_self y ys)
    · rw [min_eq_right hy]
      rcases ih with h | h
      · exact .inl h
      · exact .inr (List.mem_cons_of_mem y h)

theorem seriesMin_attained {counts : List (String × Nat)} (h : counts ≠ []) :
    ∃ p ∈ counts, p.2 = seriesMin counts := by
  unfold seriesMin
  cases counts with
  | nil => exact absurd rfl h
  | cons q qs =>
    simp only [List.map_cons]
    rcases foldr_min_choice q.2 (qs.map Prod.snd) with h1 | h1
    · exact ⟨q, List.mem_cons_self q qs, h1.symm⟩
    · obtain ⟨p, hp, hpv⟩ := List.mem_map.mp h1
      exact ⟨p, List.mem_cons_of_mem q hp, hpv⟩

theorem dedup_const {l : List String} {b : String} (hall : ∀ z ∈ l, z = b)
    (hne : l ≠ []) : l.dedup = [b] := by
  induction l with
  | nil => exact absurd rfl hne
  | cons z zs ih =>
    have hz : z = b := hall z (List.mem_cons_self z zs)
    subst hz
    cases zs with
    | nil => simp
    | cons w ws =>
      have hrec : (w :: ws).dedup = [z] := by
        refine ih (fun q hq => hall q (List.mem_cons_of_mem z hq)) (by simp)
      rw [List.dedup_cons_of_mem]
      · exact hrec
      · have : z ∈ (w :: ws).dedup := by rw [hrec]; exact List.mem_cons_self z []
        exact List.mem_dedup.mp this

theorem dedup_sub_pair {l : List String} {a₁ a₂ : String}
    (hsub : ∀ z ∈ l, z = a₁ ∨ z = a₂) (hlen : l.dedup.length ≠ 1)
    (hne : l ≠ []) : l.dedup = [a₁, a₂] ∨ l.dedup = [a₂, a₁] := by
  have hnd : l.dedup.Nodup := List.nodup_dedup l
  have hsub' : ∀ z ∈ l.dedup, z = a₁ ∨ z = a₂ :=
    fun z hz => hsub z (List.mem_dedup.mp hz)
  have hdne : l.dedup ≠ [] := by
    intro h0
    rcases List.exists_mem_of_ne_nil l hne with ⟨z, hz⟩
    have : z ∈ l.dedup := List.mem_dedup.mpr hz
    rw [h0] at this
    cases this
  cases hd : l.dedup with
  | nil => exact absurd hd hdne
  | cons z₁ t =>
    cases t with
    | nil => rw [hd] at hlen; simp at hlen
    | cons z₂ rest =>
      rw [hd] at hnd hsub'
      have hz₁ : z₁ = a₁ ∨ z₁ = a₂ := hsub' z₁ (by simp)
      have hz₂ : z₂ = a₁ ∨ z₂ = a₂ := hsub' z₂ (by simp)
      have h12 : z₁ ≠ z₂ := by
        intro hcb
        rw [List.nodup_cons] at hnd
        exact hnd.1 (by simp [hcb])
      have hrest : rest = [] := by
        cases rest with
        | nil => rfl
        | cons z₃ _ =>
          have hz₃ : z₃ = a₁ ∨ z₃ = a₂ := hsub' z₃ (by simp)
          have h13 : z₁ ≠ z₃ := by
            intro hcb
            rw [List.nodup_cons] at hnd
            exact hnd.1 (by simp [hcb])
          have h23 : z₂ ≠ z₃ := by
            intro hcb
            rw [List.nodup_cons, List.nodup_cons] at hnd
            exact hnd.2.1 (by simp [hcb])
          rcases hz₁ with h | h <;> rcases hz₂ with h' | h' <;>
            rcases hz₃ with h'' | h'' <;> subst h <;> subst h' <;>
            first
              | exact absurd rfl h12
              | (subst h''; exact absurd rfl h13)
              | (subst h''; exact absurd rfl h23)
      subst hrest
      rcases hz₁ with h | h <;> rcases hz₂ with h' | h' <;> subst h <;> subst h'
      · exact absurd rfl h12
      · exact .inl rfl
      · exact .inr rfl
      · exact absurd rfl h12

theorem value_counts_single {A : List String} {b : String}
    (hall : ∀ z ∈ A, z = b) (hne : A ≠ []) :
    value_counts A = [(b, A.count b)] := by
  unfold value_counts
  rw [dedup_const hall hne]
  rfl

theorem minimised_single_arm {m : Minimiser} {c : Nat} {ch : Dict} {a₁ a₂ b : String}
    (harms : m.arms = [a₁, a₂]) (hne : a₁ ≠ a₂) (hch : ch ≠ [])
    (hmatch : m.df_patients.filter (fun row => row_matches row ch) ≠ [])
    (hall : ∀ row ∈ m.df_patients.filter (fun row => row_matches row ch),
      Row.arm row = b)
    (hb : b = a₁ ∨ b = a₂) :
    get_minimised_arm m c ch = .ok (if b = a₁ then a₂ else a₁) := by
  have hchlen : ¬ ch.length = 0 := by simpa [List.length_eq_zero] using hch
  have hmaplen : m.df_patients.filter (fun row => row_matches row ch) ≠ [] := hmatch
  have hallmap : ∀ z ∈ (m.df_patients.filter (fun row => row_matches row ch)).map Row.arm,
      z = b := by
    intro z hz
    obtain ⟨row, hrow, hzr⟩ := List.mem_map.mp hz
    exact hzr ▸ hall row hrow
  have hmapne : (m.df_patients.filter (fun row => row_matches row ch)).map Row.arm ≠ [] := by
    simpa [List.map_eq_nil_iff] using hmaplen
  simp only [get_minimised_arm]
  rw [if_neg hchlen]
  rw [if_neg (by simpa [List.length_eq_zero] using hmatch)]
  rw [value_counts_single hallmap hmapne]
  simp only [List.length_cons, List.length_nil, if_pos rfl]
  have hidx : idxmax [(b, ((m.df_patients.filter (fun row => row_matches row ch)).map Row.arm).count b)] = b := by
    simp [idxmax, seriesMax]
  rw [hidx, harms]
  rcases hb with hb | hb
  · rw [if_pos hb]
    have h1 : (a₁ != b) = false := by simp [hb]
    have h2 : (a₂ != b) = true := by simp [bne_iff_ne, hb, Ne.symm hne]
    have hfil : [a₁, a₂].filter (fun a => a != b) = [a₂] := by
      simp [List.filter_cons, h1, h2]
    rw [hfil]
    simp
  · rw [if_neg (show ¬ (b = a₁) from fun hcb => hne (hcb.symm.trans hb))]
    have h1 : (a₁ != b) = true := by simp [bne_iff_ne, hb, hne]
    have h2 : (a₂ != b) = false := by simp [hb]
    have hfil : [a₁, a₂].filter (fun a => a != b) = [a₁] := by
      simp [List.filter_cons, h1, h2]
    rw [hfil]
    simp

theorem count_map_arm (R : List Row) (a : String) :
    (R.map Row.arm).count a = (R.filter (fun row => Row.arm row == a)).length := by
  induction R with
  | nil => rfl
  | cons row R ih =>
    simp only [List.map_cons, List.count_cons, List.filter_cons]
    by_cases h : Row.arm row == a
    · rw [if_pos h]
      simp only [h, if_pos]
      rw [List.length_cons, ih]
    · rw [if_neg h]
      simp only [h, if_neg]
      simp only [Bool.false_eq_true, if_false, ih]
      omega

theorem value_counts_key_mem {A : List String} {p : String × Nat}
    (h : p ∈ value_counts A) : p.1 ∈ A := by
  unfold value_counts at h
  obtain ⟨k, hk, hkp⟩ := List.mem_map.mp h
  rw [← hkp]
  exact List.mem_dedup.mp hk

theorem idxmin_attained {counts : List (String × Nat)} (h : counts ≠ []) :
    ∃ p ∈ counts, p.1 = idxmin counts := by
  obtain ⟨q, hq, hqv⟩ := seriesMin_attained h
  unfold idxmin
  cases hfind : counts.find? (fun p => p.2 == seriesMin counts) with
  | none =>
    exfalso
    have := List.find?_eq_none.mp hfind q hq
    simp [hqv] at this
  | some p =>
    exact ⟨p, List.mem_of_find?_eq_some hfind, by simp⟩

theorem minimised_ok_mem {m : Minimiser} {c : Nat} {ch : Dict} {a : String}
    (hrows : ∀ row ∈ m.df_patients, Row.arm row ∈ m.arms)
    (h : get_minimised_arm m c ch = .ok a) : a ∈ m.arms := by
  simp only [get_minimised_arm] at h
  by_cases hch : ch.length = 0
  · rw [if_pos hch] at h; cases h
  · rw [if_neg hch] at h
    by_cases hR : (m.df_patients.filter (fun row => row_matches row ch)).length = 0
    · rw [if_pos hR] at h
      exact get_random_arm_mem h
    · rw [if_neg hR] at h
      by_cases hlen :
          (value_counts ((m.df_patients.filter (fun row => row_matches row ch)).map Row.arm)).length = 1
      · rw [if_pos hlen] at h
        by_cases hoa : (m.arms.filter (fun x =>
            x != idxmax (value_counts ((m.df_patients.filter
              (fun row => row_matches row ch)).map Row.arm)))).length = 1
        · rw [if_pos hoa] at h
          obtain ⟨x, hx⟩ := List.length_eq_one.mp hoa
          rw [hx] at h
          cases h
          have hxm : x ∈ m.arms.filter (fun y =>
              y != idxmax (value_counts ((m.df_patients.filter
                (fun row => row_matches row ch)).map Row.arm))) := by
            rw [hx]; exact List.mem_cons_self x []
          exact (List.mem_filter.mp hxm).1
        · rw [if_neg hoa] at h; cases h
      · rw [if_neg hlen] at h
        by_cases hmm : seriesMax (value_counts ((m.df_patients.filter
              (fun row => row_matches row ch)).map Row.arm)) =
            seriesMin (value_counts ((m.df_patients.filter
              (fun row => row_matches row ch)).map Row.arm))
        · rw [if_pos hmm] at h
          exact get_random_arm_mem h
        · rw [if_neg hmm] at h
          cases h
          have hcne : value_counts ((m.df_patients.filter
              (fun row => row_matches row ch)).map Row.arm) ≠ [] := by
            intro h0
            rw [h0] at hlen hmm
            have hRne : m.df_patients.filter (fun row => row_matches row ch) ≠ [] := by
              intro hnil
              exact hR (by rw [hnil]; rfl)
            unfold value_counts at h0
            rw [List.map_eq_nil_iff, List.dedup_eq_nil, List.map_eq_nil_iff] at h0
            exact hRne h0
          obtain ⟨p, hp, hpv⟩ := idxmin_attained hcne
          rw [← hpv]
          have hkey := value_counts_key_mem hp
          obtain ⟨row, hrow, hrowa⟩ := List.mem_map.mp hkey
          rw [← hrowa]
          exact hrows row (List.mem_of_mem_filter hrow)

theorem pair_branch {m : Minimiser} {c : Nat} {a₁ a₂ b₁ b₂ arm : String} {k₁ k₂ : Nat}
    (harms : m.arms = [a₁, a₂])
    (h : (if seriesMax [(b₁, k₁), (b₂, k₂)] = seriesMin [(b₁, k₁), (b₂, k₂)]
            then get_random_arm m c
          else .ok (idxmin [(b₁, k₁), (b₂, k₂)])) = .ok arm) :
    (arm = b₁ ∧ k₁ ≤ k₂) ∨ (arm = b₂ ∧ k₂ ≤ k₁) ∨
    ((arm = a₁ ∨ arm = a₂) ∧ k₁ = k₂) := by
  have hsmax : seriesMax [(b₁, k₁), (b₂, k₂)] = max k₂ k₁ := by simp [seriesMax]
  have hsmin : seriesMin [(b₁, k₁), (b₂, k₂)] = min k₂ k₁ := by simp [seriesMin]
  by_cases hmm : seriesMax [(b₁, k₁), (b₂, k₂)] = seriesMin [(b₁, k₁), (b₂, k₂)]
  · rw [if_pos hmm] at h
    rw [hsmax, hsmin] at hmm
    have h1 : k₁ ≤ k₂ :=
      le_trans (le_trans (le_max_right k₂ k₁) (le_of_eq hmm)) (min_le_left k₂ k₁)
    have h2 : k₂ ≤ k₁ :=
      le_trans (le_trans (le_max_left k₂ k₁) (le_of_eq hmm)) (min_le_right k₂ k₁)
    rw [get_random_arm_pair harms c] at h
    injection h with harm
    refine .inr (.inr ⟨?_, le_antisymm h1 h2⟩)
    rw [← harm]
    unfold pick2
    by_cases hc : c % 2 = 0
    · rw [if_pos hc]; exact .inl rfl
    · rw [if_neg hc]; exact .inr rfl
  · rw [if_neg hmm] at h
    injection h with harm
    rw [hsmax, hsmin] at hmm
    rcases Nat.lt_trichotomy k₁ k₂ with hlt | heq | hgt
    · have hidx : idxmin [(b₁, k₁), (b₂, k₂)] = b₁ := by
        unfold idxmin
        have hs : seriesMin [(b₁, k₁), (b₂, k₂)] = k₁ := by
          rw [hsmin, min_eq_right (le_of_lt hlt)]
        rw [hs]
        simp
      exact .inl ⟨by rw [← harm, hidx], le_of_lt hlt⟩
    · exact absurd (by rw [heq]; simp) hmm
    · have hidx : idxmin [(b₁, k₁), (b₂, k₂)] = b₂ := by
        unfold idxmin
        have hs : seriesMin [(b₁, k₁), (b₂, k₂)] = k₂ := by
          rw [hsmin, min_eq_left (le_of_lt hgt)]
        rw [hs]
        rw [List.find?_cons_of_neg _ (by simp [Nat.ne_of_gt hgt])]
        simp
      exact .inr (.inl ⟨by rw [← harm, hidx], le_of_lt hgt⟩)

theorem minimised_pair_le {m : Minimiser} {c : Nat} {ch : Dict} {a₁ a₂ arm : String}
    (harms : m.arms = [a₁, a₂]) (hne : a₁ ≠ a₂) (hch : ch ≠ [])
    (hrows : ∀ row ∈ m.df_patients, Row.arm row = a₁ ∨ Row.arm row = a₂)
    (h : get_minimised_arm m c ch = .ok arm) :
    (arm = a₁ ∧
      ((m.df_patients.filter (fun row => row_matches row ch)).filter
          (fun row => Row.arm row == a₁)).length ≤
        ((m.df_patients.filter (fun row => row_matches row ch)).filter
          (fun row => Row.arm row == a₂)).length) ∨
    (arm = a₂ ∧
      ((m.df_patients.filter (fun row => row_matches row ch)).filter
          (fun row => Row.arm row == a₂)).length ≤
        ((m.df_patients.filter (fun row => row_matches row ch)).filter
          (fun row => Row.arm row == a₁)).length) := by
  have hcopy := h
  have hchlen : ¬ ch.length = 0 := by simpa [List.length_eq_zero] using hch
  simp only [get_minimised_arm] at h
  rw [if_neg hchlen] at h
  by_cases hR : (m.df_patients.filter (fun row => row_matches row ch)).length = 0
  · rw [if_pos hR] at h
    have hR0 := List.length_eq_zero.mp hR
    rw [get_random_arm_pair harms c] at h
    injection h with harm
    rw [hR0]
    rw [← harm]
    unfold pick2
    by_cases hc : c % 2 = 0
    · rw [if_pos hc]
      exact .inl ⟨rfl, le_refl _⟩
    · rw [if_neg hc]
      exact .inr ⟨rfl, le_refl _⟩
  · rw [if_neg hR] at h
    have hRne : m.df_patients.filter (fun row => row_matches row ch) ≠ [] :=
      fun h0 => hR (by rw [h0]; rfl)
    have hAne : (m.df_patients.filter (fun row => row_matches row ch)).map Row.arm ≠ [] := by
      simpa [List.map_eq_nil_iff] using hRne
    have hsub : ∀ z ∈ (m.df_patients.filter (fun row => row_matches row ch)).map Row.arm,
        z = a₁ ∨ z = a₂ := by
      intro z hz
      obtain ⟨row, hrow, hzr⟩ := List.mem_map.mp hz
      rw [← hzr]
      exact hrows row (List.mem_of_mem_filter hrow)
    have hbr₁ := count_map_arm (m.df_patients.filter (fun row => row_matches row ch)) a₁
    have hbr₂ := count_map_arm (m.df_patients.filter (fun row => row_matches row ch)) a₂
    by_cases hlen : (value_counts
        ((m.df_patients.filter (fun row => row_matches row ch)).map Row.arm)).length = 1 
    · -- all matching subjects in one arm
      have hdl : ((m.df_patients.filter (fun row => row_matches row ch)).map Row.arm).dedup.length = 1 := by
        unfold value_counts at hlen
        simpa using hlen
      obtain ⟨b, hb⟩ := List.length_eq_one.mp hdl
      have hball : ∀ z ∈ (m.df_patients.filter (fun row => row_matches row ch)).map Row.arm,
          z = b := by
        intro z hz
        have hzd := List.mem_dedup.mpr hz
        rw [hb] at hzd
        simpa using hzd
      have hbmem : b ∈ (m.df_patients.filter (fun row => row_matches row ch)).map Row.arm :=
        List.mem_dedup.mp (by rw [hb]; exact List.mem_cons_self b [])
      have hbor := hsub b hbmem
      have hallrow : ∀ row ∈ m.df_patients.filter (fun row => row_matches row ch),
          Row.arm row = b :=
        fun row hrow => hball _ (List.mem_map.mpr ⟨row, hrow, rfl⟩)
      have hres := minimised_single_arm (c := c) harms hne hch hRne hallrow hbor
      have harm : arm = if b = a₁ then a₂ else a₁ := by
        have := hcopy.symm.trans hres
        injection this
      rcases hbor with hb1 | hb2
      · rw [if_pos hb1] at harm
        refine .inr ⟨harm, ?_⟩
        have hz : ((m.df_patients.filter (fun row => row_matches row ch)).filter
            (fun row => Row.arm row == a₂)).length = 0 := by
          rw [List.length_eq_zero, List.filter_eq_nil_iff]
          intro row hrow
          rw [hallrow row hrow, hb1]
          simp [hne]
        rw [hz]
        exact Nat.zero_le _
      · rw [if_neg (show ¬ b = a₁ from fun hcb => hne (hcb.symm.trans hb2))] at harm
        refine .inl ⟨harm, ?_⟩
        have hz : ((m.df_patients.filter (fun row => row_matches row ch)).filter
            (fun row => Row.arm row == a₁)).length = 0 := by
          rw [List.length_eq_zero, List.filter_eq_nil_iff]
          intro row hrow
          rw [hallrow row hrow, hb2]
          simp [Ne.symm hne]
        rw [hz]
        exact Nat.zero_le _
    · -- both arms hold matching subjects
      rw [if_neg hlen] at h
      have hdne : ((m.df_patients.filter (fun row => row_matches row ch)).map Row.arm).dedup.length ≠ 1 := by
        unfold value_counts at hlen
        simpa using hlen
      rcases dedup_sub_pair hsub hdne hAne with hd | hd
      · have hvc : value_counts ((m.df_patients.filter (fun row => row_matches row ch)).map Row.arm) =
            [(a₁, ((m.df_patients.filter (fun row => row_matches row ch)).map Row.arm).count a₁),
             (a₂, ((m.df_patients.filter (fun row => row_matches row ch)).map Row.arm).count a₂)] := by
          unfold value_counts
          rw [hd]
          rfl
        rw [hvc] at h
        rcases pair_branch harms h with ⟨ha, hk⟩ | ⟨ha, hk⟩ | ⟨ha, hk⟩
        · exact .inl ⟨ha, by rw [← hbr₁, ← hbr₂]; exact hk⟩
        · exact .inr ⟨ha, by rw [← hbr₁, ← hbr₂]; exact hk⟩
        · rcases ha with ha | ha
          · exact .inl ⟨ha, by rw [← hbr₁, ← hbr₂]; exact le_of_eq hk⟩
          · exact .inr ⟨ha, by rw [← hbr₁, ← hbr₂]; exact le_of_eq hk.symm⟩
      · have hvc : value_counts ((m.df_patients.filter (fun row => row_matches row ch)).map Row.arm) =
            [(a₂, ((m.df_patients.filter (fun row => row_matches row ch)).map Row.arm).count a₂),
             (a₁, ((m.df_patients.filter (fun row => row_matches row ch)).map Row.arm).count a₁)] := by
          unfold value_counts
          rw [hd]
          rfl
        rw [hvc] at h
        rcases pair_branch harms h with ⟨ha, hk⟩ | ⟨ha, hk⟩ | ⟨ha, hk⟩
        · exact .inr ⟨ha, by rw [← hbr₁, ← hbr₂]; exact hk⟩
        · exact .inl ⟨ha, by rw [← hbr₁, ← hbr₂]; exact hk⟩
        · rcases ha with ha | ha
          · exact .inl ⟨ha, by rw [← hbr₁, ← hbr₂]; exact le_of_eq hk.symm⟩
          · exact .inr ⟨ha, by rw [← hbr₁, ← hbr₂]; exact le_of_eq hk⟩

theorem reachable_invariant {m : Minimiser} (hm : Reachable m) :
    (∀ p ∈ m.minimisation_vars, p.1 ≠ "arm") ∧
    (∀ row ∈ m.df_patients, Row.arm row ∈ m.arms) := by
  induction hm with
  | boot vars arms w sb m h =>
    obtain ⟨hmeq, hvars⟩ := minimiserInit_ok h
    subst hmeq
    exact ⟨hvars, by intro row hrow; cases hrow⟩
  | step m ro id ch m' ch' ret hreach hok ih =>
    obtain ⟨arm, hm', hch', hret, hid, hcv, hbranch⟩ := randomise_ok_inversion hok
    subst hm'
    refine ⟨ih.1, ?_⟩
    intro row hrow
    rcases List.mem_append.mp hrow with h1 | h2
    · exact ih.2 row h1
    · have hrow2 : row = { id := id, cells := dictInsert ch "arm" arm } := by
        simpa using h2
      subst hrow2
      have hKeys : ∀ p ∈ ch, p.1 ≠ "arm" := by
        have hperm := check_valid_keys_perm hcv
        intro p hp hcon
        have h1 : "arm" ∈ dictKeys ch := List.mem_map.mpr ⟨p, hp, hcon⟩
        have h2 : "arm" ∈ m.minimisation_vars.map Prod.fst := hperm.mem_iff.mp h1
        obtain ⟨q, hq, hq1⟩ := List.mem_map.mp h2
        exact ih.1 q hq hq1
      have harmeq : Row.arm { id := id, cells := dictInsert ch "arm" arm } = arm := by
        unfold Row.arm
        rw [dictInsert_of_keys_ne hKeys]
        exact dictGet_append_of_keys_ne hKeys arm
      rw [harmeq]
      show arm ∈ m.arms
      rcases hbranch with ⟨_, hra⟩ | ⟨_, _, hma⟩ | ⟨_, _, hra⟩
      · exact get_random_arm_mem hra
      · exact minimised_ok_mem ih.2 hma
      · exact get_random_arm_mem hra

theorem row_matches_single (row : Row) (v w : String) :
    row_matches row [(v, w)] = (dictGet row.cells v == w) := by
  simp [row_matches]

theorem armCount_eq_filter (df : List Row) (v w a : String) :
    armCount df v w a =
      ((df.filter (fun row => dictGet row.cells v == w)).filter
        (fun row => Row.arm row == a)).length := by
  unfold armCount
  rw [List.filter_filter]
  congr 1
  exact List.filter_congr (fun row _ => Bool.and_comm _ _)

theorem armCount_append (df : List Row) (row : Row) (v w a : String) :
    armCount (df ++ [row]) v w a =
      armCount df v w a +
        (if dictGet row.cells v == w && Row.arm row == a then 1 else 0) := by
  unfold armCount
  rw [List.filter_append, List.length_append]
  congr 1
  by_cases h : dictGet row.cells v == w && Row.arm row == a
  · rw [if_pos h]
    simp [List.filter, h]
  · rw [if_neg h]
    simp only [Bool.not_eq_true] at h
    simp [List.filter, h]

theorem dictGet_pair_fst (v val k2 w2 : String) :
    dictGet [(v, val), (k2, w2)] v = val := by
  simp [dictGet]

theorem dictGet_pair_snd {v : String} (hv : v ≠ "arm") (val arm : String) :
    dictGet [(v, val), ("arm", arm)] "arm" = arm := by
  unfold dictGet
  rw [List.find?_cons_of_neg _ (by simp [hv])]
  simp

theorem dict_single_key {d : Dict} {k : String} (h : dictKeys d = [k]) :
    ∃ v, d = [(k, v)] := by
  cases d with
  | nil => cases h
  | cons p t =>
    cases t with
    | nil =>
      simp only [dictKeys, List.map_cons, List.map_nil, List.cons.injEq] at h
      exact ⟨p.2, by rw [← h.1]⟩
    | cons q t2 =>
      simp [dictKeys] at h

theorem reachBal_invariant {vname x y a₁ a₂ : String} {sb : Bool} {m : Minimiser}
    (hne : a₁ ≠ a₂) (hm : ReachBal vname x y a₁ a₂ sb m) :
    m.minimisation_vars = [(vname, [x, y])] ∧ m.arms = [a₁, a₂] ∧
    m.minimisation_weight = 1 ∧ vname ≠ "arm" ∧
    (∀ row ∈ m.df_patients, Row.arm row = a₁ ∨ Row.arm row = a₂) ∧
    (∀ w, armCount m.df_patients vname w a₁ ≤ armCount m.df_patients vname w a₂ + 1 ∧
          armCount m.df_patients vname w a₂ ≤ armCount m.df_patients vname w a₁ + 1) := by
  induction hm with
  | boot m h =>
    obtain ⟨hmeq, hvars⟩ := minimiserInit_ok h
    subst hmeq
    refine ⟨rfl, rfl, rfl, hvars (vname, [x, y]) (by simp), ?_, ?_⟩
    · intro row hrow; cases hrow
    · intro w
      exact ⟨Nat.le_succ 0, Nat.le_succ 0⟩
  | step m ro id ch m' ch' ret hreach hro hok ih =>
    obtain ⟨hvars, harms, hw, hvn, hrows, hbal⟩ := ih
    obtain ⟨arm, hm', hch', hret, hid, hcv, hbranch⟩ := randomise_ok_inversion hok
    have hperm := check_valid_keys_perm hcv
    rw [hvars] at hperm
    simp only [List.map_cons, List.map_nil] at hperm
    have hkeys : dictKeys ch = [vname] := List.perm_singleton.mp hperm
    obtain ⟨val, hcheq⟩ := dict_single_key hkeys
    subst hcheq
    have hinseq : dictInsert [(vname, val)] "arm" arm = [(vname, val), ("arm", arm)] := by
      apply dictInsert_of_keys_ne
      intro p hp
      have : p = (vname, val) := by simpa using hp
      rw [this]
      exact hvn
    -- the appended row and the arm it carries
    have harmmem : arm = a₁ ∨ arm = a₂ := by
      rcases hbranch with ⟨_, hra⟩ | ⟨_, _, hma⟩ | ⟨hdf, hr, _⟩
      · have := get_random_arm_mem hra
        rw [harms] at this
        simpa using this
      · rcases minimised_pair_le harms hne (by simp) hrows hma with ⟨ha, _⟩ | ⟨ha, _⟩
        · exact .inl ha
        · exact .inr ha
      · rw [hw] at hr
        exact absurd (le_of_lt hro.2) hr
    subst hm'
    refine ⟨hvars, harms, hw, hvn, ?_, ?_⟩
    · intro row hrow
      rcases List.mem_append.mp hrow with h1 | h2
      · exact hrows row h1
      · have hrow2 : row = { id := id, cells := dictInsert [(vname, val)] "arm" arm } := by
          simpa using h2
        rw [hrow2]
        have : Row.arm { id := id, cells := dictInsert [(vname, val)] "arm" arm } = arm := by
          unfold Row.arm
          rw [hinseq]
          exact dictGet_pair_snd hvn val arm
        rw [this]
        exact harmmem
    · intro w
      have hACa : ∀ a, armCount (m.df_patients ++
            [{ id := id, cells := dictInsert [(vname, val)] "arm" arm }]) vname w a =
          armCount m.df_patients vname w a + (if val == w && arm == a then 1 else 0) := by
        intro a
        rw [armCount_append]
        have h1 : dictGet (Row.mk id (dictInsert [(vname, val)] "arm" arm)).cells vname = val := by
          show dictGet (dictInsert [(vname, val)] "arm" arm) vname = val
          rw [hinseq]
          exact dictGet_pair_fst vname val "arm" arm
        have h2 : Row.arm (Row.mk id (dictInsert [(vname, val)] "arm" arm)) = arm := by
          show dictGet (dictInsert [(vname, val)] "arm" arm) "arm" = arm
          rw [hinseq]
          exact dictGet_pair_snd hvn val arm
        rw [h1, h2]
      rw [hACa a₁, hACa a₂]
      by_cases hwv : val = w
      · -- the new subject has this covariate value
        subst hwv
        simp only [beq_self_eq_true, Bool.true_and]
        rcases hbranch with ⟨hdf, hra⟩ | ⟨hdf, hr, hma⟩ | ⟨hdf, hr, _⟩
        · -- first patient: registry was empty
          have hdf0 : m.df_patients = [] := List.length_eq_zero.mp hdf
          rw [hdf0]
          have hz : ∀ a, armCount ([] : List Row) vname val a = 0 := fun a => rfl
          rw [hz a₁, hz a₂]
          rcases harmmem with ha | ha
          · simp [ha, hne]
          · simp [ha, Ne.symm hne]
        · -- minimisation step
          have hfeq : m.df_patients.filter (fun row => row_matches row [(vname, val)]) =
              m.df_patients.filter (fun row => dictGet row.cells vname == val) :=
            List.filter_congr (fun row _ => row_matches_single row vname val)
          have hb := minimised_pair_le harms hne (by simp) hrows hma
          rw [hfeq] at hb
          have hbr : ∀ a, ((m.df_patients.filter (fun row => dictGet row.cells vname == val)).filter
              (fun row => Row.arm row == a)).length = armCount m.df_patients vname val a :=
            fun a => (armCount_eq_filter m.df_patients vname val a).symm
          rw [hbr a₁, hbr a₂] at hb
          rcases hb with ⟨ha, hle⟩ | ⟨ha, hle⟩
          · rw [ha]
            simp only [beq_self_eq_true, if_pos]
            rw [if_neg (by simp [hne])]
            constructor
            · omega
            · have := (hbal val).2
              omega
          · rw [ha]
            simp only [beq_self_eq_true, if_pos]
            rw [if_neg (by simp [Ne.symm hne])]
            constructor
            · have := (hbal val).1
              omega
            · omega
        · rw [hw] at hr
          exact absurd (le_of_lt hro.2) hr
      · -- a different covariate value: counts unchanged
        have : (val == w) = false := by simp [hwv]
        rw [this]
        simp only [Bool.false_and, if_false]
        have := hbal w
        omega

theorem get_random_arm_ne_nil {m : Minimiser} (h : m.arms ≠ []) (c : Nat) :
    ∃ a, get_random_arm m c = .ok a := by
  unfold get_random_arm
  have hlen : 0 < m.arms.length := List.length_pos.mpr h
  cases hg : m.arms.get? (c % m.arms.length) with
  | none =>
    exfalso
    have := List.get?_eq_none.mp hg
    have hlt := Nat.mod_lt c hlen
    omega
  | some a => exact ⟨a, rfl⟩

theorem ch_keys_ne_arm {m : Minimiser} {ch : Dict}
    (hvars : ∀ p ∈ m.minimisation_vars, p.1 ≠ "arm")
    (hcv : check_valid_characteristics m ch = .ok true) :
    ∀ p ∈ ch, p.1 ≠ "arm" := by
  have hperm := check_valid_keys_perm hcv
  intro p hp hcon
  have h1 : "arm" ∈ dictKeys ch := List.mem_map.mpr ⟨p, hp, hcon⟩
  have h2 : "arm" ∈ m.minimisation_vars.map Prod.fst := hperm.mem_iff.mp h1
  obtain ⟨q, hq, hq1⟩ := List.mem_map.mp h2
  exact hvars q hq hq1

theorem new_row_arm {ch : Dict} {id arm : String} (h : ∀ p ∈ ch, p.1 ≠ "arm") :
    Row.arm { id := id, cells := dictInsert ch "arm" arm } = arm := by
  unfold Row.arm
  rw [dictInsert_of_keys_ne h]
  exact dictGet_append_of_keys_ne h arm

theorem randomise_eval {m : Minimiser} {ro : ROracle} {id : String} {ch : Dict}
    {arm : String}
    (hcv : check_valid_characteristics m ch = .ok true)
    (hid : ¬ id ∈ m.columns)
    (harm : (if m.df_patients.length = 0 then get_random_arm m ro.c
             else if ro.r ≤ m.minimisation_weight then get_minimised_arm m ro.c ch
             else get_random_arm m ro.c) = .ok arm) :
    randomise_patient m ro id ch =
      .ok ({ m with df_patients :=
               m.df_patients ++ [{ id := id, cells := dictInsert ch "arm" arm }] },
           dictInsert ch "arm" arm, none) := by
  unfold randomise_patient
  rw [hcv]
  dsimp only
  rw [harm]
  dsimp only
  unfold add_patient_to_arm
  rw [if_neg hid]

/-- C1 counterexample: a successful `randomise_patient` call whose chosen arm
(recorded in the appended row) is `A` returns `none` as its result value — the
Python function body has no return statement — so the call does not return the
chosen arm label. -/
theorem C1_counterexample :
    randomise_patient engAB ⟨0, 0⟩ "1" chMale =
      .ok (engAB1, [("sex", "male"), ("arm", "A")], none) ∧
    Row.arm rowA1 = "A" ∧ ((none : Option String) = some "A" → False) := by decide

/-- C1 amended: every successful `randomise_patient` call returns `None`
(`none`), while the chosen arm is recorded in the single record appended to
the registry; the arm is not the function's result value. -/
theorem C1_returns_none {m : Minimiser} {ro : ROracle} {id : String} {ch : Dict}
    {m' : Minimiser} {ch' : Dict} {ret : Option String}
    (h : randomise_patient m ro id ch = .ok (m', ch', ret)) :
    ret = none ∧ ∃ row, m'.df_patients = m.df_patients ++ [row] := by
  obtain ⟨arm, hm', hch', hret, hrest⟩ := randomise_ok_inversion h
  subst hm'
  exact ⟨hret, _, rfl⟩

/-- C1 witness: the amended statement at a concrete first randomisation. -/
theorem C1_returns_none_witness :
    (none : Option String) = none ∧
    ∃ row, engAB1.df_patients = engAB.df_patients ++ [row] :=
  @C1_returns_none engAB ⟨0, 0⟩ "1" chMale engAB1
    [("sex", "male"), ("arm", "A")] none (by decide)

/-- C2 failing input: with `1` already registered, resubmitting id `1`
SUCCEEDS — the membership test `id not in self.df_patients` consults the
dataframe's column labels, not the registered ids — and the registry ends up
holding two records with id `1`, contradicting the duplicate-subject claim
and the code's own assertion message. -/
theorem C2_duplicate_id_accepted :
    randomise_patient engAB1 ⟨0, 0⟩ "1" chMale =
      .ok ({ engAB with df_patients :=
               [rowA1, { id := "1", cells := [("sex", "male"), ("arm", "B")] }] },
           [("sex", "male"), ("arm", "B")], none) ∧
    (((engAB1.df_patients ++
        [({ id := "1", cells := [("sex", "male"), ("arm", "B")] } : Row)]).filter
          (fun row => row.id == "1")).length = 2) := by decide

/-- C6 counterexample: a successful call hands back the caller's
characteristics dictionary with an `arm` key inserted — the call mutates the
caller-supplied mapping, contradicting the claim that it is not modified. -/
theorem C6_counterexample :
    randomise_patient engAB ⟨0, 0⟩ "1" chMale =
      .ok (engAB1, [("sex", "male"), ("arm", "A")], none) ∧
    [("sex", "male"), ("arm", "A")] ≠ chMale := by decide

/-- C6 amended: a successful call leaves every configuration field of the
engine unchanged and appends exactly one record to the registry, but it also
mutates the caller's characteristics dictionary by inserting the chosen arm
under the key `arm` (the pseudo-random source, modelled by the external
oracle, advances as well). -/
theorem C6_frame_condition {m : Minimiser} {ro : ROracle} {id : String} {ch : Dict}
    {m' : Minimiser} {ch' : Dict} {ret : Option String}
    (h : randomise_patient m ro id ch = .ok (m', ch', ret)) :
    m'.minimisation_vars = m.minimisation_vars ∧ m'.arms = m.arms ∧
    m'.minimisation_weight = m.minimisation_weight ∧
    m'.use_first_patient_id_as_seed = m.use_first_patient_id_as_seed ∧
    ∃ arm, m'.df_patients =
        m.df_patients ++ [{ id := id, cells := dictInsert ch "arm" arm }] ∧
      ch' = dictInsert ch "arm" arm := by
  obtain ⟨arm, hm', hch', hret, hrest⟩ := randomise_ok_inversion h
  subst hm'
  exact ⟨rfl, rfl, rfl, rfl, arm, rfl, hch'⟩

/-- C6 witness: the amended frame condition at a concrete call. -/
theorem C6_frame_condition_witness :
    engAB1.minimisation_vars = engAB.minimisation_vars ∧
    engAB1.arms = engAB.arms ∧
    engAB1.minimisation_weight = engAB.minimisation_weight ∧
    engAB1.use_first_patient_id_as_seed = engAB.use_first_patient_id_as_seed ∧
    ∃ arm, engAB1.df_patients =
        engAB.df_patients ++ [{ id := "1", cells := dictInsert chMale "arm" arm }] ∧
      [("sex", "male"), ("arm", "A")] = dictInsert chMale "arm" arm :=
  @C6_frame_condition engAB ⟨0, 0⟩ "1" chMale engAB1
    [("sex", "male"), ("arm", "A")] none (by decide)

/-- C7 counterexample: construction with a single arm and minimisation
weight 2 (outside the unit interval) succeeds, refuting the claim that such
configurations fail construction. -/
theorem C7_counterexample :
    minimiserInit sexVars ["A"] 2 true =
      .ok { minimisation_vars := sexVars, arms := ["A"], minimisation_weight := 2,
            use_first_patient_id_as_seed := true, df_patients := [] } := by decide

/-- C7 amended: construction fails (with the reserved-name assertion) iff
some variable is literally named `arm`; the arm count, arm distinctness and
the minimisation weight are not validated, so every input avoiding the
reserved name constructs successfully. -/
theorem C7_construction_validation (vars : List (String × List String))
    (arms : List String) (w : ℚ) (sb : Bool) :
    ((∃ p ∈ vars, p.1 = "arm") →
      minimiserInit vars arms w sb = .error .assertArmReserved) ∧
    ((∀ p ∈ vars, p.1 ≠ "arm") →
      minimiserInit vars arms w sb =
        .ok { minimisation_vars := vars, arms := arms, minimisation_weight := w,
              use_first_patient_id_as_seed := sb, df_patients := [] }) := by
  constructor
  · rintro ⟨p, hp, hpk⟩
    unfold minimiserInit
    rw [if_pos (List.any_eq_true.mpr ⟨p, hp, by simp [hpk]⟩)]
  · intro h
    unfold minimiserInit
    rw [if_neg (show ¬ (vars.any (fun p => p.1 == "arm")) = true from by
      intro hany
      obtain ⟨p, hp, hpk⟩ := List.any_eq_true.mp hany
      exact h p hp (by simpa using hpk))]

/-- C7 witness: both construction outcomes at concrete inputs. -/
theorem C7_construction_validation_witness :
    minimiserInit [("arm", ["x"])] ["A", "B"] 1 false = .error .assertArmReserved ∧
    minimiserInit sexVars ["A", "B"] 1 false =
      .ok { minimisation_vars := sexVars, arms := ["A", "B"],
            minimisation_weight := 1, use_first_patient_id_as_seed := false,
            df_patients := [] } :=
  ⟨(C7_construction_validation [("arm", ["x"])] ["A", "B"] 1 false).1
      ⟨("arm", ["x"]), by decide, rfl⟩,
   (C7_construction_validation sexVars ["A", "B"] 1 false).2 (by decide)⟩

/-- C3: a characteristics dictionary whose key set differs from the
configured variable names fails with the covariate-mismatch error; one whose
keys match but that holds a value outside its variable's permitted set fails
with the invalid-covariate-value error; in both cases the error carries the
engine state and the characteristics dictionary unchanged (no mutation
precedes the raise). -/
theorem C3_validation_errors (m : Minimiser) (ro : ROracle) (id : String) (ch : Dict) :
    (¬ (dictKeys ch).Perm (m.minimisation_vars.map Prod.fst) →
      randomise_patient m ro id ch = .error (.covariateMismatch, m, ch)) ∧
    (∀ k v, (dictKeys ch).Perm (m.minimisation_vars.map Prod.fst) →
      (dictKeys ch).Nodup → (k, v) ∈ ch → v ∉ m.varGet k →
      randomise_patient m ro id ch = .error (.invalidCovariateValue, m, ch)) := by
  constructor
  · intro hperm
    have hcv : check_valid_characteristics m ch = .error .covariateMismatch := by
      unfold check_valid_characteristics
      rw [if_pos (show sortedStr (dictKeys ch) ≠
          sortedStr (m.minimisation_vars.map Prod.fst) from
        fun heq => hperm (sortedStr_eq_iff.mp heq))]
    unfold randomise_patient
    rw [hcv]
  · intro k v hperm hnd hmem hval
    have hcv : check_valid_characteristics m ch = .error .invalidCovariateValue := by
      unfold check_valid_characteristics
      rw [if_neg (not_ne_iff.mpr (sortedStr_eq_iff.mpr hperm))]
      have hk : k ∈ sortedStr (dictKeys ch) := by
        have hk0 : k ∈ dictKeys ch := List.mem_map.mpr ⟨(k, v), hmem, rfl⟩
        exact ((List.perm_insertionSort _ _).mem_iff).mpr hk0
      have hget : dictGet ch k = v := dictGet_of_mem hnd hmem
      have hpred : (! (m.varGet k).contains (dictGet ch k)) = true := by
        rw [hget]
        simpa using hval
      cases hfind : (sortedStr (dictKeys ch)).find?
          (fun k => ! (m.varGet k).contains (dictGet ch k)) with
      | none =>
        exfalso
        have := List.find?_eq_none.mp hfind k hk
        exact this hpred
      | some q => rfl
    unfold randomise_patient
    rw [hcv]

/-- C3 witness: both validation failures at concrete inputs. -/
theorem C3_validation_errors_witness :
    randomise_patient engAB ⟨0, 0⟩ "9" [("sexx", "male")] =
      .error (.covariateMismatch, engAB, [("sexx", "male")]) ∧
    randomise_patient engAB ⟨0, 0⟩ "9" [("sex", "cat")] =
      .error (.invalidCovariateValue, engAB, [("sex", "cat")]) :=
  ⟨(C3_validation_errors engAB ⟨0, 0⟩ "9" [("sexx", "male")]).1 (by decide),
   (C3_validation_errors engAB ⟨0, 0⟩ "9" [("sex", "cat")]).2 "sex" "cat"
     (by decide) (by decide) (by decide) (by decide)⟩

/-- C4: the spec's concrete scenario. With `sex`:(male,female), arms (A,B),
weight 1, seeding disabled and an empty registry: id 1 (male) is assigned by
a random choice over both arms (the oracle index selects either); after
fixing that choice to `A`, id 2 (male) must be assigned `B` under every valid
pseudo-random draw; and id 3 (female) never fails — it is assigned by a
random choice over both arms. -/
theorem C4_concrete_scenario :
    (∀ c : Nat, randomise_patient engAB ⟨0, c⟩ "1" chMale =
        .ok ({ engAB with df_patients :=
                 [{ id := "1", cells := [("sex", "male"), ("arm", pick2 c "A" "B")] }] },
             [("sex", "male"), ("arm", pick2 c "A" "B")], none)) ∧
    (∀ ro : ROracle, ro.valid →
      randomise_patient engAB1 ro "2" chMale =
        .ok (engAB2, [("sex", "male"), ("arm", "B")], none)) ∧
    (∀ ro : ROracle, ro.valid →
      randomise_patient engAB2 ro "3" chFemale =
        .ok ({ engAB with df_patients :=
                 [rowA1, rowB2,
                  { id := "3", cells := [("sex", "female"), ("arm", pick2 ro.c "A" "B")] }] },
             [("sex", "female"), ("arm", pick2 ro.c "A" "B")], none)) := by
  refine ⟨?_, ?_, ?_⟩
  · intro c
    have hstep := @randomise_eval engAB ⟨0, c⟩ "1" chMale (pick2 c "A" "B")
        (by decide) (by decide)
        (by rw [if_pos (show engAB.df_patients.length = 0 from rfl)]
            exact get_random_arm_pair rfl c)
    rw [hstep, dictInsert_of_keys_ne (by decide) (pick2 c "A" "B")]
    rfl
  · intro ro hro
    have h1 : ro.r ≤ engAB1.minimisation_weight := le_of_lt hro.2
    have hmin : get_minimised_arm engAB1 ro.c chMale = .ok "B" := rfl
    have hstep := @randomise_eval engAB1 ro "2" chMale "B"
        (by decide) (by decide)
        (by rw [if_neg (show ¬ engAB1.df_patients.length = 0 from by decide), if_pos h1]
            exact hmin)
    rw [hstep]
    rfl
  · intro ro hro
    have h1 : ro.r ≤ engAB2.minimisation_weight := le_of_lt hro.2
    have hmin : get_minimised_arm engAB2 ro.c chFemale = .ok (pick2 ro.c "A" "B") := by
      have hra := get_random_arm_pair (m := engAB2) rfl ro.c
      simp only [get_minimised_arm]
      rw [if_neg (show ¬ (chFemale : List (String × String)).length = 0 from by decide)]
      rw [if_pos (show (engAB2.df_patients.filter
          (fun row => row_matches row chFemale)).length = 0 from by decide)]
      exact hra
    have hstep := @randomise_eval engAB2 ro "3" chFemale (pick2 ro.c "A" "B")
        (by decide) (by decide)
        (by rw [if_neg (show ¬ engAB2.df_patients.length = 0 from by decide), if_pos h1]
            exact hmin)
    rw [hstep]
    rfl

/-- C4 witness: the three calls at concrete oracle draws. -/
theorem C4_concrete_scenario_witness :
    randomise_patient engAB ⟨0, 0⟩ "1" chMale =
      .ok ({ engAB with df_patients :=
               [{ id := "1", cells := [("sex", "male"), ("arm", pick2 0 "A" "B")] }] },
           [("sex", "male"), ("arm", pick2 0 "A" "B")], none) ∧
    randomise_patient engAB1 ⟨0, 0⟩ "2" chMale =
      .ok (engAB2, [("sex", "male"), ("arm", "B")], none) ∧
    randomise_patient engAB2 ⟨0, 1⟩ "3" chFemale =
      .ok ({ engAB with df_patients :=
               [rowA1, rowB2,
                { id := "3", cells := [("sex", "female"), ("arm", pick2 1 "A" "B")] }] },
           [("sex", "female"), ("arm", pick2 1 "A" "B")], none) :=
  ⟨C4_concrete_scenario.1 0,
   C4_concrete_scenario.2.1 ⟨0, 0⟩ ⟨le_refl 0, by norm_num⟩,
   C4_concrete_scenario.2.2 ⟨0, 1⟩ ⟨le_refl 0, by norm_num⟩⟩

/-- C5: with two distinct arms, one covariate with two permitted values and
minimisation weight 1, every state reachable by successful randomisations
under draws the `random` module can produce keeps the two per-arm counts
restricted to any one covariate value within 1 of each other. -/
theorem C5_marginal_balance {vname x y a₁ a₂ : String} {sb : Bool} {m : Minimiser}
    (hne : a₁ ≠ a₂) (hm : ReachBal vname x y a₁ a₂ sb m) (w : String) :
    armCount m.df_patients vname w a₁ ≤ armCount m.df_patients vname w a₂ + 1 ∧
    armCount m.df_patients vname w a₂ ≤ armCount m.df_patients vname w a₁ + 1 :=
  (reachBal_invariant hne hm).2.2.2.2.2 w

/-- C5 witness: the balance bound at a concrete reachable state. -/
theorem C5_marginal_balance_witness :
    armCount engAB1.df_patients "sex" "male" "A" ≤
      armCount engAB1.df_patients "sex" "male" "B" + 1 ∧
    armCount engAB1.df_patients "sex" "male" "B" ≤
      armCount engAB1.df_patients "sex" "male" "A" + 1 :=
  C5_marginal_balance (by decide)
    ((ReachBal.step engAB ⟨0, 0⟩ "1" chMale engAB1
        [("sex", "male"), ("arm", "A")] none
        (ReachBal.boot engAB (by decide)) ⟨le_refl 0, by norm_num⟩ (by decide) :
      ReachBal "sex" "male" "female" "A" "B" false engAB1))
    "male"

/-- C8 counterexample: with three arms and all matching subjects in one
arm, the operation does not choose among the other arms at random — it fails
the assertion that exactly one other arm exists. -/
theorem C8_counterexample :
    randomise_patient engABC ⟨0, 0⟩ "2" chMale =
      .error (.assertSingleOtherArm, engABC, chMale) := by decide

/-- C8 amended: when the registered subjects matching the new subject on
every covariate all lie in one arm `b` of a two-arm configuration, the
joint-exact-match strategy assigns the other arm (never `b`); with more than
two arms it instead fails an assertion (see the counterexample). -/
theorem C8_single_arm_reassignment {m : Minimiser} {c : Nat} {ch : Dict}
    {a₁ a₂ b : String}
    (harms : m.arms = [a₁, a₂]) (hne : a₁ ≠ a₂) (hch : ch ≠ [])
    (hmatch : m.df_patients.filter (fun row => row_matches row ch) ≠ [])
    (hall : ∀ row ∈ m.df_patients.filter (fun row => row_matches row ch),
      Row.arm row = b)
    (hb : b = a₁ ∨ b = a₂) :
    get_minimised_arm m c ch = .ok (if b = a₁ then a₂ else a₁) ∧
    get_minimised_arm m c ch ≠ .ok b := by
  have h := minimised_single_arm (c := c) harms hne hch hmatch hall hb
  refine ⟨h, ?_⟩
  rw [h]
  intro hcb
  injection hcb with hcb
  rcases hb with h1 | h1
  · rw [if_pos h1] at hcb
    exact hne (h1 ▸ hcb).symm
  · by_cases h2 : b = a₁
    · rw [if_pos h2] at hcb
      exact hne (h2 ▸ hcb).symm
    · rw [if_neg h2] at hcb
      exact h2 hcb.symm

/-- C8 witness: the two-arm single-arm case at a concrete registry. -/
theorem C8_single_arm_reassignment_witness :
    get_minimised_arm engAB1 0 chMale = .ok (if "A" = "A" then "B" else "A") ∧
    get_minimised_arm engAB1 0 chMale ≠ .ok "A" :=
  @C8_single_arm_reassignment engAB1 0 chMale "A" "B" "A"
    rfl (by decide) (by decide) (by decide) (by decide) (.inl rfl)

/-- C9: from any reachable engine state, a successful `randomise_patient`
call appends exactly one record whose arm is a member of the configured arms
sequence. -/
theorem C9_arm_coverage {m : Minimiser} {ro : ROracle} {id : String} {ch : Dict}
    {m' : Minimiser} {ch' : Dict} {ret : Option String}
    (hm : Reachable m) (h : randomise_patient m ro id ch = .ok (m', ch', ret)) :
    ∃ row, m'.df_patients = m.df_patients ++ [row] ∧ Row.arm row ∈ m.arms := by
  obtain ⟨arm, hm', hch', hret, hid, hcv, hbranch⟩ := randomise_ok_inversion h
  obtain ⟨hvars, hrows⟩ := reachable_invariant hm
  subst hm'
  refine ⟨_, rfl, ?_⟩
  rw [new_row_arm (ch_keys_ne_arm hvars hcv)]
  rcases hbranch with ⟨_, hra⟩ | ⟨_, _, hma⟩ | ⟨_, _, hra⟩
  · exact get_random_arm_mem hra
  · exact minimised_ok_mem hrows hma
  · exact get_random_arm_mem hra

/-- C9 witness: arm coverage at a concrete reachable state. -/
theorem C9_arm_coverage_witness :
    ∃ row, engAB1.df_patients = engAB.df_patients ++ [row] ∧
      Row.arm row ∈ engAB.arms :=
  @C9_arm_coverage engAB ⟨0, 0⟩ "1" chMale engAB1
    [("sex", "male"), ("arm", "A")] none
    (Reachable.boot sexVars ["A", "B"] 1 false engAB (by decide)) (by decide)

/-- C10: on a fresh engine with an empty registry and valid
characteristics, any id that equals a dataframe column label — a configured
variable name or the string `arm` — makes `randomise_patient` fail the
duplicate-check assertion, because the membership test consults the column
labels rather than the registered ids. -/
theorem C10_reserved_id_assertion {m : Minimiser} {ro : ROracle} {id : String}
    {ch : Dict}
    (hdf : m.df_patients = []) (harms : m.arms ≠ [])
    (hcv : check_valid_characteristics m ch = .ok true)
    (hid : id ∈ m.columns) :
    randomise_patient m ro id ch = .error (.assertPatientInList, m, ch) := by
  unfold randomise_patient
  rw [hcv]
  dsimp only
  rw [if_pos (show m.df_patients.length = 0 from by rw [hdf]; rfl)]
  obtain ⟨a, ha⟩ := get_random_arm_ne_nil harms ro.c
  rw [ha]
  dsimp only
  unfold add_patient_to_arm
  rw [if_pos hid]

/-- C10 witness: id `sex` trips the assertion on a fresh engine. -/
theorem C10_reserved_id_assertion_witness :
    randomise_patient engAB ⟨0, 0⟩ "sex" chMale =
      .error (.assertPatientInList, engAB, chMale) :=
  @C10_reserved_id_assertion engAB ⟨0, 0⟩ "sex" chMale
    rfl (by decide) (by decide) (by decide)


end PyMinim
